import Mathlib

/-!
Shallow embedding of `Fire2012Rainbow` (src/Fire2012Rainbow.h).

The source is one C function operating on a persistent `byte heat[W][H]`
grid and an external LED frame buffer.  Heat cells are modelled as `Nat`
(always kept in `[0,255]` by the saturating primitives), a heat column as
`Nat → Nat` (row index to value), the grid as `Nat → Nat → Nat`
(column, then row), and the frame buffer as `Nat → C` for an abstract
color type `C`.

External FastLED collaborators (`qsub8`, `qadd8`, `scale8`, `random8`,
`ColorFromPalette`, `XY`) are not part of this repository; they are
modelled from the spec's collaborator contracts (section 6 of spec.md).
Randomness is modelled by passing the per-column draws explicitly
(`ColRand`), with a validity predicate recording the ranges the spec
assigns to each draw.
-/

namespace Fire2012

/-- `COOLINGRainbow` compile-time constant from the source (150). -/
def COOLINGRainbow : Nat := 150

/-- `SPARKINGRainbow` compile-time constant from the source (60). -/
def SPARKINGRainbow : Nat := 60

/-- Modelled from the spec: `saturatingSubtract(u8,u8) -> u8` clamps to
`[0,255]` (FastLED `qsub8`, an external collaborator).  On `Nat`,
truncated subtraction is exactly saturation at 0. -/
def qsub8 (a b : Nat) : Nat := a - b

/-- Modelled from the spec: `saturatingAdd(u8,u8) -> u8` clamps to
`[0,255]` (FastLED `qadd8`, an external collaborator). -/
def qadd8 (a b : Nat) : Nat := min (a + b) 255

/-- Modelled from the spec: `scaleProportional(u8 value, u8 scaleMax)`
returns `value * scaleMax / 255` (FastLED `scale8`, an external
collaborator). -/
def scale8 (v s : Nat) : Nat := v * s / 255

/-- Write value `v` at row `i` of a heat column (array store). -/
def updateF (f : Nat → Nat) (i v : Nat) : Nat → Nat :=
  fun j => if j = i then v else f j

/-- Write color `v` at linear index `i` of the frame buffer. -/
def updateG {C : Type} (f : Nat → C) (i : Nat) (v : C) : Nat → C :=
  fun n => if n = i then v else f n

/-- The random draws one column consumes in one frame: one cooling draw
per row (`random8(0, (COOLING*10)/HEIGHT + 2)`), the ignition gate byte
(`random8()`), the spark row (`random8(2)`) and the spark amount
(`random8(160,255)`). -/
structure ColRand where
  cool : Nat → Nat
  gate : Nat
  sparkRow : Nat
  sparkAmt : Nat

/-- Modelled from the spec: the ranges of the random draws.
`uniformRandom(min,max)` is inclusive-lower exclusive-upper, the gate
draw is "one uniform random byte in [0,255)", the spark row is uniform
on `{0,1}`, the spark amount is drawn from `[160,255)`, and each cooling
draw from `[0, (COOLING*10)/HEIGHT + 2)`. -/
def ColRand.Valid (cooling H : Nat) (r : ColRand) : Prop :=
  (∀ i, i < H → r.cool i < cooling * 10 / H + 2) ∧
  r.gate < 255 ∧ r.sparkRow < 2 ∧ 160 ≤ r.sparkAmt ∧ r.sparkAmt < 255

/-- Step 1 of the source: `for (i = 0; i < H; i++)
heat[x][i] = qsub8(heat[x][i], draw i)`.  Each iteration touches only
its own cell, so the loop is a pointwise map over rows `< H`. -/
def coolCol (H : Nat) (draw : Nat → Nat) (c : Nat → Nat) : Nat → Nat :=
  fun i => if i < H then qsub8 (c i) (draw i) else c i

/-- The descending diffusion loop of step 2, started at row `k`:
`for (; k >= 2; k--) heat[x][k] = (heat[x][k-1] + heat[x][k-2] +
heat[x][k-2]) / 3`, updating the column in place. -/
def diffuseFrom (c : Nat → Nat) : Nat → (Nat → Nat)
  | 0 => c
  | 1 => c
  | k + 2 => diffuseFrom (updateF c (k + 2) ((c (k + 1) + c k + c k) / 3)) (k + 1)

/-- Step 2 of the source: the diffusion loop entered at `k = H - 1`. -/
def diffuseCol (H : Nat) (c : Nat → Nat) : Nat → Nat :=
  diffuseFrom c (H - 1)

/-- Step 3 of the source: `if (random8() < SPARKING) { y = random8(2);
heat[x][y] = qadd8(heat[x][y], random8(160,255)); }`. -/
def igniteCol (sparking : Nat) (r : ColRand) (c : Nat → Nat) : Nat → Nat :=
  if r.gate < sparking then
    updateF c r.sparkRow (qadd8 (c r.sparkRow) r.sparkAmt)
  else c

/-- Steps 1-3 (the heat update) for one column. -/
def colStep (H sparking : Nat) (r : ColRand) (c : Nat → Nat) : Nat → Nat :=
  igniteCol sparking r (diffuseCol H (coolCol H r.cool c))

/-- The heat-grid part of one `Fire2012Rainbow()` call: every column
`x < W` is updated independently by `colStep` with its own draws. -/
def advanceHeat (W H sparking : Nat) (R : Nat → ColRand)
    (g : Nat → Nat → Nat) : Nat → Nat → Nat :=
  fun x => if x < W then colStep H sparking (R x) (g x) else g x

/-- Heat state after `n` calls starting from grid `g`; `Rs n x` gives
the draws column `x` consumes during frame `n`. -/
def iterFrom (W H sparking : Nat) (Rs : Nat → Nat → ColRand)
    (g : Nat → Nat → Nat) : Nat → (Nat → Nat → Nat)
  | 0 => g
  | n + 1 => advanceHeat W H sparking (Rs n) (iterFrom W H sparking Rs g n)

/-- The first `n` iterations of the render loop of step 4 for column
`x`: iteration `j` writes
`leds[XY(x, (H-1)-j)] = pal (scale8 (heat[x][j]) 160)`. -/
def renderUpto {C : Type} (XY : Nat → Nat → Nat) (pal : Nat → C)
    (H x : Nat) (c : Nat → Nat) (leds : Nat → C) : Nat → (Nat → C)
  | 0 => leds
  | j + 1 =>
      updateG (renderUpto XY pal H x c leds j) (XY x (H - 1 - j))
        (pal (scale8 (c j) 160))

/-- Step 4 of the source for one column: all `H` render writes. -/
def renderCol {C : Type} (XY : Nat → Nat → Nat) (pal : Nat → C)
    (H x : Nat) (c : Nat → Nat) (leds : Nat → C) : Nat → C :=
  renderUpto XY pal H x c leds H

/-- Frame-buffer state after the first `n` columns of one call: column
`x` renders its own post-update heat column. -/
def frameLedsUpto {C : Type} (XY : Nat → Nat → Nat) (pal : Nat → C)
    (H sparking : Nat) (R : Nat → ColRand) (g : Nat → Nat → Nat)
    (leds : Nat → C) : Nat → (Nat → C)
  | 0 => leds
  | x + 1 =>
      renderCol XY pal H x (colStep H sparking (R x) (g x))
        (frameLedsUpto XY pal H sparking R g leds x)

/-- The frame-buffer part of one `Fire2012Rainbow()` call. -/
def frameLeds {C : Type} (XY : Nat → Nat → Nat) (pal : Nat → C)
    (W H sparking : Nat) (R : Nat → ColRand) (g : Nat → Nat → Nat)
    (leds : Nat → C) : Nat → C :=
  frameLedsUpto XY pal H sparking R g leds W

/-- One whole `Fire2012Rainbow()` call: the new heat grid, the new frame
buffer, and the returned delay hint (the source's `return 15`). -/
def Fire2012Rainbow {C : Type} (XY : Nat → Nat → Nat) (pal : Nat → C)
    (W H sparking : Nat) (R : Nat → ColRand) (g : Nat → Nat → Nat)
    (leds : Nat → C) : (Nat → Nat → Nat) × (Nat → C) × Nat :=
  (advanceHeat W H sparking R g, frameLeds XY pal W H sparking R g leds, 15)

/-- The set of frame-buffer indices the render loops address. -/
def writtenSet (XY : Nat → Nat → Nat) (W H : Nat) : Finset Nat :=
  (Finset.range W ×ˢ Finset.range H).image fun p => XY p.1 (H - 1 - p.2)

/- ### Characterization of the diffusion loop -/

/-- The descending loop writes rows `2..m`, and each write reads the
original (pre-diffusion) values of the two rows below it. -/
theorem diffuseFrom_eq (c : Nat → Nat) (m : Nat) : ∀ k,
    diffuseFrom c m k =
      if 2 ≤ k ∧ k ≤ m then (c (k - 1) + c (k - 2) + c (k - 2)) / 3 else c k := by
  induction m using Nat.strong_induction_on generalizing c with
  | _ m ih =>
    match m with
    | 0 =>
      intro k
      simp only [diffuseFrom]
      rw [if_neg (by omega : ¬(2 ≤ k ∧ k ≤ 0))]
    | 1 =>
      intro k
      simp only [diffuseFrom]
      rw [if_neg (by omega : ¬(2 ≤ k ∧ k ≤ 1))]
    | m + 2 =>
      intro k
      rw [diffuseFrom, ih (m + 1) (by omega)]
      by_cases hk : 2 ≤ k ∧ k ≤ m + 1
      · have h1 : k - 1 ≠ m + 2 := by omega
        have h2 : k - 2 ≠ m + 2 := by omega
        simp only [hk, and_self, if_pos, updateF, h1, h2, if_neg, if_true]
        have : 2 ≤ k ∧ k ≤ m + 2 := ⟨hk.1, by omega⟩
        simp [this]
      · simp only [hk, if_false, updateF]
        by_cases hk2 : k = m + 2
        · subst hk2
          have : 2 ≤ m + 2 ∧ m + 2 ≤ m + 2 := ⟨by omega, le_refl _⟩
          simp [this]
        · have : ¬(2 ≤ k ∧ k ≤ m + 2) := by omega
          simp [hk2, this]

/-- Pointwise description of `diffuseCol`. -/
theorem diffuseCol_eq (H : Nat) (c : Nat → Nat) (k : Nat) :
    diffuseCol H c k =
      if 2 ≤ k ∧ k ≤ H - 1 then (c (k - 1) + c (k - 2) + c (k - 2)) / 3
      else c k :=
  diffuseFrom_eq c (H - 1) k

/- ### Saturation bounds for each phase -/

theorem coolCol_le (H : Nat) (draw c : Nat → Nat) (i : Nat) :
    coolCol H draw c i ≤ c i := by
  unfold coolCol qsub8
  split <;> omega

theorem diffuseCol_le (H : Nat) (c : Nat → Nat) (B : Nat)
    (hc : ∀ i, c i ≤ B) (i : Nat) : diffuseCol H c i ≤ B := by
  rw [diffuseCol_eq]
  split
  · have h1 := hc (i - 1)
    have h2 := hc (i - 2)
    omega
  · exact hc i

theorem igniteCol_le255 (s : Nat) (r : ColRand) (c : Nat → Nat)
    (hc : ∀ i, c i ≤ 255) (i : Nat) : igniteCol s r c i ≤ 255 := by
  unfold igniteCol updateF qadd8
  split
  · show (if i = r.sparkRow then min (c r.sparkRow + r.sparkAmt) 255 else c i) ≤ 255
    split
    · exact Nat.min_le_right _ _
    · exact hc i
  · exact hc i

theorem colStep_le255 (H s : Nat) (r : ColRand) (c : Nat → Nat)
    (hc : ∀ i, c i ≤ 255) (i : Nat) : colStep H s r c i ≤ 255 :=
  igniteCol_le255 s r _
    (fun j => diffuseCol_le H _ 255
      (fun m => (coolCol_le H r.cool c m).trans (hc m)) j) i

theorem iterFrom_le255 (W H sparking : Nat) (Rs : Nat → Nat → ColRand)
    (g : Nat → Nat → Nat) (hg : ∀ x y, g x y ≤ 255) :
    ∀ n x y, iterFrom W H sparking Rs g n x y ≤ 255 := by
  intro n
  induction n with
  | zero => exact hg
  | succ n ih =>
      intro x y
      show advanceHeat W H sparking (Rs n) (iterFrom W H sparking Rs g n) x y ≤ 255
      unfold advanceHeat
      split
      · exact colStep_le255 H sparking _ _ (fun j => ih x j) y
      · exact ih x y

/-- C1: starting from the zero grid, every cell stays in `[0,255]` after
any number of frames (cell values are `Nat`, so the lower bound is by
type), and each individual phase (cooling, diffusion, ignition) maps a
column with cells `≤ 255` to a column with cells `≤ 255` — no phase
wraps a value past either end of the byte range. -/
theorem heat_saturation_invariant :
    (∀ W H sparking Rs n x y,
        iterFrom W H sparking Rs (fun _ _ => 0) n x y ≤ 255) ∧
    (∀ H draw (c : Nat → Nat), (∀ i, c i ≤ 255) →
        ∀ i, coolCol H draw c i ≤ 255) ∧
    (∀ H (c : Nat → Nat), (∀ i, c i ≤ 255) →
        ∀ i, diffuseCol H c i ≤ 255) ∧
    (∀ s (r : ColRand) (c : Nat → Nat), (∀ i, c i ≤ 255) →
        ∀ i, igniteCol s r c i ≤ 255) :=
  ⟨fun W H sparking Rs n x y =>
      iterFrom_le255 W H sparking Rs _ (fun _ _ => Nat.zero_le 255) n x y,
   fun H draw c hc i => (coolCol_le H draw c i).trans (hc i),
   fun H c hc i => diffuseCol_le H c 255 hc i,
   fun s r c hc i => igniteCol_le255 s r c hc i⟩

theorem heat_saturation_invariant_witness :
    iterFrom 2 3 60 (fun _ _ => ⟨fun _ => 1, 0, 0, 160⟩) (fun _ _ => 0) 4 0 2 ≤ 255 ∧
    ((∀ i : Nat, (200 : Nat) ≤ 255) ∧ coolCol 3 (fun _ => 1) (fun _ => 200) 1 ≤ 255) :=
  ⟨heat_saturation_invariant.1 2 3 60 (fun _ _ => ⟨fun _ => 1, 0, 0, 160⟩) 4 0 2,
   fun _ => by norm_num,
   heat_saturation_invariant.2.1 3 (fun _ => 1) (fun _ => 200)
     (fun _ => by norm_num) 1⟩

/-- C2: the diffusion phase sets row `k`, for `k` ranging over the loop
indices `HEIGHT-1` down to `2`, to the truncated 1:2-weighted average
`(c (k-1) + c (k-2) + c (k-2)) / 3` of the pre-diffusion values of the
two rows below it (the descending order makes every read see the
not-yet-diffused value), and leaves rows 0 and 1 unchanged. -/
theorem diffusion_weighted_average (H : Nat) (c : Nat → Nat) :
    (∀ k, 2 ≤ k → k ≤ H - 1 →
        diffuseCol H c k = (c (k - 1) + c (k - 2) + c (k - 2)) / 3) ∧
    diffuseCol H c 0 = c 0 ∧ diffuseCol H c 1 = c 1 := by
  refine ⟨fun k h1 h2 => ?_, ?_, ?_⟩
  · rw [diffuseCol_eq, if_pos ⟨h1, h2⟩]
  · rw [diffuseCol_eq, if_neg (by omega)]
  · rw [diffuseCol_eq, if_neg (by omega)]

theorem diffusion_weighted_average_witness :
    diffuseCol 4 (fun i => 10 * i) 3 = (20 + 10 + 10) / 3 ∧
    diffuseCol 4 (fun i => 10 * i) 0 = 0 ∧
    diffuseCol 4 (fun i => 10 * i) 1 = 10 := by
  refine ⟨?_, ?_, ?_⟩
  · rw [(diffusion_weighted_average 4 (fun i => 10 * i)).1 3 (by norm_num) (by norm_num)]
  · rw [(diffusion_weighted_average 4 (fun i => 10 * i)).2.1]
  · rw [(diffusion_weighted_average 4 (fun i => 10 * i)).2.2]

/-- C3: under the spec's draw contract, the cooling phase replaces each
cell `i < HEIGHT` by the saturating subtraction of a draw from
`[0, (COOLING*10)/HEIGHT + 2)`; it never increases any cell, and
`qsub8` saturates at 0 rather than wrapping (stated over `Int`). -/
theorem cooling_saturating_monotone (H cooling : Nat) (r : ColRand)
    (c : Nat → Nat) (hr : ColRand.Valid cooling H r) :
    (∀ i, i < H → coolCol H r.cool c i = qsub8 (c i) (r.cool i) ∧
        r.cool i < cooling * 10 / H + 2) ∧
    (∀ i, coolCol H r.cool c i ≤ c i) ∧
    (∀ a b : Nat, ((qsub8 a b : Nat) : Int) = max ((a : Int) - (b : Int)) 0) := by
  refine ⟨fun i hi => ⟨?_, hr.1 i hi⟩, fun i => coolCol_le H r.cool c i,
    fun a b => ?_⟩
  · unfold coolCol
    rw [if_pos hi]
  · unfold qsub8
    omega

theorem cooling_saturating_monotone_witness :
    coolCol 3 (fun _ => 2) (fun _ => 100) 0 = qsub8 100 2 ∧
    coolCol 3 (fun _ => 2) (fun _ => 100) 0 ≤ 100 ∧
    ((qsub8 1 5 : Nat) : Int) = max ((1 : Int) - 5) 0 := by
  have h := cooling_saturating_monotone 3 150 ⟨fun _ => 2, 0, 0, 160⟩
      (fun _ => 100)
      ⟨fun i _ => by norm_num, by norm_num, by norm_num, by norm_num, by norm_num⟩
  exact ⟨(h.1 0 (by norm_num)).1, h.2.1 0, h.2.2 1 5⟩

/-- C4: under the spec's draw contract (one gate byte per column per
frame, drawn from `[0,255)`), when the gate is below SPARKING the
ignition phase adds a draw from `[160,255)` to a row drawn from `{0,1}`
with saturation at 255; when it is not, the column is untouched; and in
either case every row other than the drawn spark row keeps its value,
so at most one cell per column changes. -/
theorem ignition_single_spark (H cooling sparking : Nat) (r : ColRand)
    (c : Nat → Nat) (hr : ColRand.Valid cooling H r) :
    (r.gate < sparking →
        igniteCol sparking r c =
          updateF c r.sparkRow (qadd8 (c r.sparkRow) r.sparkAmt) ∧
        r.sparkRow < 2 ∧ 160 ≤ r.sparkAmt ∧ r.sparkAmt < 255 ∧
        igniteCol sparking r c r.sparkRow ≤ 255) ∧
    (¬ r.gate < sparking → igniteCol sparking r c = c) ∧
    (∀ y, y ≠ r.sparkRow → igniteCol sparking r c y = c y) ∧
    r.gate < 255 := by
  obtain ⟨-, hgate, hrow, hlo, hhi⟩ := hr
  refine ⟨fun hfire => ⟨?_, hrow, hlo, hhi, ?_⟩, fun hquiet => ?_,
    fun y hy => ?_, hgate⟩
  · unfold igniteCol
    rw [if_pos hfire]
  · unfold igniteCol
    rw [if_pos hfire]
    show (if r.sparkRow = r.sparkRow then qadd8 (c r.sparkRow) r.sparkAmt
        else c r.sparkRow) ≤ 255
    rw [if_pos rfl]
    show min (c r.sparkRow + r.sparkAmt) 255 ≤ 255
    exact Nat.min_le_right _ _
  · unfold igniteCol
    rw [if_neg hquiet]
  · unfold igniteCol updateF
    split
    · show (if y = r.sparkRow then qadd8 (c r.sparkRow) r.sparkAmt else c y) = c y
      rw [if_neg hy]
    · rfl

theorem ignition_single_spark_witness :
    igniteCol 60 ⟨fun _ => 0, 10, 1, 180⟩ (fun _ => 50) =
      updateF (fun _ => 50) 1 (qadd8 50 180) ∧
    igniteCol 60 ⟨fun _ => 0, 10, 1, 180⟩ (fun _ => 50) 0 = 50 := by
  have h := ignition_single_spark 3 150 60 ⟨fun _ => 0, 10, 1, 180⟩
      (fun _ => 50)
      ⟨fun i _ => by show (0 : Nat) < 150 * 10 / 3 + 2; decide,
        by decide, by decide, by decide, by decide⟩
  exact ⟨(h.1 (by decide)).1, h.2.2.1 0 (by decide)⟩

/- ### Render-loop lemmas -/

theorem renderUpto_out {C : Type} (XY : Nat → Nat → Nat) (pal : Nat → C)
    (H x : Nat) (c : Nat → Nat) (leds : Nat → C) :
    ∀ n p, (∀ j, j < n → p ≠ XY x (H - 1 - j)) →
      renderUpto XY pal H x c leds n p = leds p := by
  intro n
  induction n with
  | zero => intro p _; rfl
  | succ n ih =>
      intro p hp
      show updateG (renderUpto XY pal H x c leds n) (XY x (H - 1 - n))
          (pal (scale8 (c n) 160)) p = leds p
      unfold updateG
      rw [if_neg (hp n (Nat.lt_succ_self n))]
      exact ih p (fun j hj => hp j (Nat.lt_succ_of_lt hj))

theorem renderUpto_at {C : Type} (XY : Nat → Nat → Nat) (pal : Nat → C)
    (H x : Nat) (c : Nat → Nat) (leds : Nat → C)
    (hinj : ∀ j j', j < H → j' < H → XY x j = XY x j' → j = j') :
    ∀ n, n ≤ H → ∀ j, j < n →
      renderUpto XY pal H x c leds n (XY x (H - 1 - j)) =
        pal (scale8 (c j) 160) := by
  intro n
  induction n with
  | zero => intro _ j hj; omega
  | succ n ih =>
      intro hn j hj
      show updateG (renderUpto XY pal H x c leds n) (XY x (H - 1 - n))
          (pal (scale8 (c n) 160)) (XY x (H - 1 - j)) = pal (scale8 (c j) 160)
      unfold updateG
      by_cases hjn : j = n
      · subst hjn
        rw [if_pos rfl]
      · have hne : XY x (H - 1 - j) ≠ XY x (H - 1 - n) := by
          intro he
          have h1 : H - 1 - j < H := by omega
          have h2 : H - 1 - n < H := by omega
          have := hinj (H - 1 - j) (H - 1 - n) h1 h2 he
          omega
        rw [if_neg hne]
        exact ih (by omega) j (by omega)

/-- C5: within a column the render loop writes, at the frame-buffer
index of column `x` and flipped row `(HEIGHT-1)-j`, exactly the palette
lookup of the heat value scaled from `[0,255]` to `[0,160]`; and the
whole render phase is a pure function of the heat column: equal heat
gives equal pixel output.  (`hinj` says the external `XY` mapping gives
the column's `HEIGHT` rows distinct buffer indices, so no later write
of the same column clobbers an earlier one.) -/
theorem render_pure_flipped {C : Type} (XY : Nat → Nat → Nat) (pal : Nat → C)
    (H x : Nat) (c c2 : Nat → Nat) (leds : Nat → C)
    (hinj : ∀ j j', j < H → j' < H → XY x j = XY x j' → j = j') :
    (∀ j, j < H → renderCol XY pal H x c leds (XY x (H - 1 - j)) =
        pal (scale8 (c j) 160)) ∧
    (c = c2 → renderCol XY pal H x c leds = renderCol XY pal H x c2 leds) :=
  ⟨fun j hj => renderUpto_at XY pal H x c leds hinj H (le_refl H) j hj,
   fun he => by rw [he]⟩

theorem render_pure_flipped_witness :
    renderCol (fun _ y => y) (fun v : Nat => v) 3 0 (fun _ => 100)
      (fun _ => 7) 2 = scale8 100 160 := by
  have h := (render_pure_flipped (fun _ y => y) (fun v : Nat => v) 3 0
      (fun _ => 100) (fun _ => 100) (fun _ => 7)
      (fun j j' _ _ he => he)).1 0 (by norm_num)
  exact h

/-- C6: the diffusion loop's visited indices `k` satisfy `2 ≤ k`, so
both read indices `k-1` and `k-2` are nonnegative; for `HEIGHT = 3`
exactly row `k = 2` is assigned; and for `HEIGHT < 3` the loop range is
empty and the column is returned untouched. -/
theorem diffusion_index_safety (H : Nat) (c : Nat → Nat) :
    (H < 3 → diffuseCol H c = c) ∧
    (∀ k, 2 ≤ k → k ≤ H - 1 →
        0 ≤ (k : Int) - 1 ∧ 0 ≤ (k : Int) - 2 ∧
        diffuseCol H c k = (c (k - 1) + c (k - 2) + c (k - 2)) / 3) ∧
    diffuseCol 3 c 2 = (c 1 + c 0 + c 0) / 3 ∧
    (∀ k, k ≠ 2 → diffuseCol 3 c k = c k) := by
  refine ⟨fun hH => ?_,
    fun k h1 h2 => ⟨by omega, by omega, by rw [diffuseCol_eq, if_pos ⟨h1, h2⟩]⟩,
    ?_, fun k hk => ?_⟩
  · funext k
    rw [diffuseCol_eq, if_neg (by omega)]
  · rw [diffuseCol_eq, if_pos ⟨by norm_num, by norm_num⟩]
  · rw [diffuseCol_eq, if_neg (by omega)]

theorem diffusion_index_safety_witness :
    diffuseCol 2 (fun i => i + 5) = (fun i => i + 5) ∧
    diffuseCol 3 (fun i => i + 5) 2 = (1 + 5 + (0 + 5) + (0 + 5)) / 3 ∧
    diffuseCol 3 (fun i => i + 5) 0 = 0 + 5 := by
  refine ⟨(diffusion_index_safety 2 (fun i => i + 5)).1 (by norm_num), ?_, ?_⟩
  · have h := (diffusion_index_safety 3 (fun i => i + 5)).2.2.1
    simpa using h
  · have h := (diffusion_index_safety 3 (fun i => i + 5)).2.2.2 0 (by norm_num)
    simpa using h

/- ### Frame-buffer footprint of a whole call -/

theorem mem_writtenSet (XY : Nat → Nat → Nat) (W H x j : Nat)
    (hx : x < W) (hj : j < H) :
    XY x (H - 1 - j) ∈ writtenSet XY W H := by
  unfold writtenSet
  exact Finset.mem_image.mpr
    ⟨(x, j), by simp [Finset.mem_product, Finset.mem_range, hx, hj], rfl⟩

theorem frameLedsUpto_out {C : Type} (XY : Nat → Nat → Nat) (pal : Nat → C)
    (H sparking : Nat) (R : Nat → ColRand) (g : Nat → Nat → Nat)
    (leds : Nat → C) :
    ∀ n p, (∀ x j, x < n → j < H → p ≠ XY x (H - 1 - j)) →
      frameLedsUpto XY pal H sparking R g leds n p = leds p := by
  intro n
  induction n with
  | zero => intro p _; rfl
  | succ n ih =>
      intro p hp
      show renderCol XY pal H n (colStep H sparking (R n) (g n))
          (frameLedsUpto XY pal H sparking R g leds n) p = leds p
      unfold renderCol
      rw [renderUpto_out XY pal H n _ _ H p
        (fun j hj => hp n j (Nat.lt_succ_self n) hj)]
      exact ih p (fun x j hx hj => hp x j (Nat.lt_succ_of_lt hx) hj)

/-- C7: one call mutates only the heat grid and the frame buffer: the
returned hint is the constant 15, the new heat grid is exactly
`advanceHeat` of the old one (independent of the buffer and palette),
every buffer index outside the `WIDTH×HEIGHT` addressed rectangle keeps
its old color, and when the external `XY` mapping is injective on the
rectangle the addressed set has exactly `WIDTH*HEIGHT` pixels. -/
theorem frame_effects {C : Type} (XY : Nat → Nat → Nat) (pal : Nat → C)
    (W H sparking : Nat) (R : Nat → ColRand) (g : Nat → Nat → Nat)
    (leds : Nat → C)
    (hinj : ∀ x y x' y', x < W → y < H → x' < W → y' < H →
        XY x y = XY x' y' → x = x' ∧ y = y') :
    (Fire2012Rainbow XY pal W H sparking R g leds).2.2 = 15 ∧
    (Fire2012Rainbow XY pal W H sparking R g leds).1 =
      advanceHeat W H sparking R g ∧
    (∀ p, p ∉ writtenSet XY W H →
        (Fire2012Rainbow XY pal W H sparking R g leds).2.1 p = leds p) ∧
    (writtenSet XY W H).card = W * H := by
  refine ⟨rfl, rfl, fun p hp => ?_, ?_⟩
  · show frameLeds XY pal W H sparking R g leds p = leds p
    apply frameLedsUpto_out
    intro x j hx hj he
    exact hp (he ▸ mem_writtenSet XY W H x j hx hj)
  · rcases Nat.eq_zero_or_pos H with hH | hH
    · subst hH
      simp [writtenSet]
    · unfold writtenSet
      rw [Finset.card_image_of_injOn, Finset.card_product, Finset.card_range,
        Finset.card_range]
      intro p hp q hq he
      rw [Finset.mem_coe, Finset.mem_product, Finset.mem_range,
        Finset.mem_range] at hp hq
      have h1 : H - 1 - p.2 < H := by omega
      have h2 : H - 1 - q.2 < H := by omega
      obtain ⟨hx, hy⟩ :=
        hinj p.1 (H - 1 - p.2) q.1 (H - 1 - q.2) hp.1 h1 hq.1 h2 he
      have h3 : p.2 = q.2 := by omega
      exact Prod.ext hx h3

theorem frame_effects_witness :
    (Fire2012Rainbow (fun x y => x * 10 + y) (fun v : Nat => v) 2 3 60
        (fun _ => ⟨fun _ => 0, 0, 0, 160⟩) (fun _ _ => 0) (fun _ => 0)).2.2 = 15 ∧
    (writtenSet (fun x y => x * 10 + y) 2 3).card = 2 * 3 := by
  have h := frame_effects (fun x y => x * 10 + y) (fun v : Nat => v) 2 3 60
      (fun _ => ⟨fun _ => 0, 0, 0, 160⟩) (fun _ _ => 0) (fun _ => 0)
      (fun x y x' y' hx hy hx' hy' he => by dsimp only at he; omega)
  exact ⟨h.1, h.2.2.2⟩

/-- C8: with SPARKING = 255 and the spec's draw contract (the gate byte
is drawn from `[0,255)`), the ignition branch is taken for every column
on every frame: the column step always applies the saturating spark
add, whatever the gate byte was. -/
theorem sparking_max_always_ignites (H cooling : Nat) (r : ColRand)
    (c : Nat → Nat) (hr : ColRand.Valid cooling H r) :
    colStep H 255 r c =
      updateF (diffuseCol H (coolCol H r.cool c)) r.sparkRow
        (qadd8 (diffuseCol H (coolCol H r.cool c) r.sparkRow) r.sparkAmt) := by
  unfold colStep igniteCol
  rw [if_pos hr.2.1]

theorem sparking_max_always_ignites_witness :
    colStep 3 255 ⟨fun _ => 0, 254, 1, 200⟩ (fun _ => 0) 1 = 200 := by
  have h := sparking_max_always_ignites 3 150 ⟨fun _ => 0, 254, 1, 200⟩
      (fun _ => 0)
      ⟨fun i _ => by norm_num, by norm_num, by norm_num, by norm_num, by norm_num⟩
  rw [h]
  decide

/-- Per-column draws with zero cooling everywhere: cooling draw 0 for
every row, gate byte 0, spark row 0, spark amount 160 — all inside the
spec's draw ranges. -/
def rZeroCool : ColRand := ⟨fun _ => 0, 0, 0, 160⟩

/-- C9 counterexample: zero cooling draws are inside the spec's draw
range, yet with SPARKING = 0 they make the all-255 grid on a 1×3 matrix
a fixed point of the heat update, so the grid is still at 255 after 300
frames — it does not reach all-zero within any bounded number of frames
for this draw sequence. -/
theorem bounded_decay_counterexample :
    ColRand.Valid 150 3 rZeroCool ∧
    advanceHeat 1 3 0 (fun _ => rZeroCool) (fun _ _ => 255) = (fun _ _ => 255) ∧
    iterFrom 1 3 0 (fun _ _ => rZeroCool) (fun _ _ => 255) 300 0 0 = 255 := by
  have hc : coolCol 3 rZeroCool.cool (fun _ => 255) = (fun _ => (255 : Nat)) := by
    funext i
    show (if i < 3 then qsub8 255 (rZeroCool.cool i) else 255) = 255
    split <;> rfl
  have hfix : advanceHeat 1 3 0 (fun _ => rZeroCool) (fun _ _ => 255) =
      (fun _ _ => 255) := by
    funext x y
    unfold advanceHeat
    split
    · show colStep 3 0 rZeroCool (fun _ => 255) y = 255
      unfold colStep igniteCol
      rw [if_neg (Nat.not_lt_zero _), hc, diffuseCol_eq]
      split <;> norm_num
    · rfl
  have hiter : ∀ n, iterFrom 1 3 0 (fun _ _ => rZeroCool) (fun _ _ => 255) n =
      (fun _ _ => 255) := by
    intro n
    induction n with
    | zero => rfl
    | succ n ih =>
        show advanceHeat 1 3 0 (fun _ => rZeroCool)
            (iterFrom 1 3 0 (fun _ _ => rZeroCool) (fun _ _ => 255) n) =
          (fun _ _ => 255)
        rw [ih, hfix]
  exact ⟨⟨fun i _ => by show (0 : Nat) < 150 * 10 / 3 + 2; decide,
      by decide, by decide, by decide, by decide⟩,
    hfix, by rw [hiter 300]⟩

theorem colStep_decr (H : Nat) (r : ColRand) (c : Nat → Nat) (B : Nat)
    (hc : ∀ i, i < H → c i ≤ B + 1) (hd : ∀ i, i < H → 1 ≤ r.cool i) :
    ∀ i, i < H → colStep H 0 r c i ≤ B := by
  have hcool : ∀ j, j < H → coolCol H r.cool c j ≤ B := by
    intro j hj
    show (if j < H then qsub8 (c j) (r.cool j) else c j) ≤ B
    rw [if_pos hj]
    have ha := hc j hj
    have hb := hd j hj
    unfold qsub8
    omega
  intro i hi
  unfold colStep igniteCol
  rw [if_neg (Nat.not_lt_zero _), diffuseCol_eq]
  split
  · rename_i h
    have h1 := hcool (i - 1) (by omega)
    have h2 := hcool (i - 2) (by omega)
    omega
  · exact hcool i hi

theorem iterFrom_decay (W H : Nat) (Rs : Nat → Nat → ColRand)
    (g : Nat → Nat → Nat) (hg : ∀ x y, g x y ≤ 255)
    (hdraw : ∀ n x i, i < H → 1 ≤ (Rs n x).cool i) :
    ∀ n x y, x < W → y < H → iterFrom W H 0 Rs g n x y ≤ 255 - n := by
  intro n
  induction n with
  | zero => intro x y _ _; exact hg x y
  | succ n ih =>
      intro x y hx hy
      show advanceHeat W H 0 (Rs n) (iterFrom W H 0 Rs g n) x y ≤ 255 - (n + 1)
      unfold advanceHeat
      rw [if_pos hx]
      exact colStep_decr H (Rs n x) (iterFrom W H 0 Rs g n x) (255 - (n + 1))
        (fun i hi => by have h := ih x i hx hi; omega)
        (fun i hi => hdraw n x i hi) y hy

/-- C9 amended: with SPARKING = 0 the ignition phase is the identity,
so rows 0 and 1 never gain heat from it; and on every draw sequence in
which each cooling draw is at least 1 — values the draw range
`[0, (COOLING*10)/HEIGHT + 2)` always contains — a grid with cells
`≤ 255` is all zero on the WIDTH×HEIGHT rectangle after 255 frames.
(For arbitrary valid draw sequences the decay claim fails: all-zero
draws make a saturated grid a fixed point.) -/
theorem extinction_with_positive_draws (W H : Nat)
    (Rs : Nat → Nat → ColRand) (g : Nat → Nat → Nat)
    (hg : ∀ x y, g x y ≤ 255)
    (hdraw : ∀ n x i, i < H → 1 ≤ (Rs n x).cool i) :
    (∀ (r : ColRand) (c : Nat → Nat), igniteCol 0 r c = c) ∧
    (∀ x y, x < W → y < H → iterFrom W H 0 Rs g 255 x y = 0) := by
  refine ⟨fun r c => ?_, fun x y hx hy => ?_⟩
  · unfold igniteCol
    rw [if_neg (Nat.not_lt_zero _)]
  · exact Nat.le_zero.mp (iterFrom_decay W H Rs g hg hdraw 255 x y hx hy)

theorem extinction_with_positive_draws_witness :
    igniteCol 0 ⟨fun _ => 1, 0, 0, 160⟩ (fun _ => 9) = (fun _ => 9) ∧
    iterFrom 1 3 0 (fun _ _ => ⟨fun _ => 1, 0, 0, 160⟩) (fun _ _ => 255)
      255 0 0 = 0 := by
  have h := extinction_with_positive_draws 1 3
      (fun _ _ => ⟨fun _ => 1, 0, 0, 160⟩) (fun _ _ => 255)
      (fun _ _ => le_refl 255) (fun _ _ _ _ => le_refl 1)
  exact ⟨h.1 ⟨fun _ => 1, 0, 0, 160⟩ (fun _ => 9),
    h.2 0 0 (by norm_num) (by norm_num)⟩

/-- The 1×3 example heat column of the spec's end-to-end scenario:
row 0 = 200 (bottom), row 1 = 100, row 2 = 50. -/
def heatExample : Nat → Nat :=
  fun i => if i = 0 then 200 else if i = 1 then 100 else 50

/-- C10 counterexample: with COOLING = 0 the all-zero cooling draws are
valid (`[0, 0*10/3 + 2) = [0,2)` contains 0), and one frame then gives
`heat[0][2] = (100 + 200 + 200)/3 = 166`, not 66: diffusion at row 2
reads the two rows below it (rows 1 and 0), and 166 ≠ 66. -/
theorem diffusion_example_counterexample :
    ColRand.Valid 0 3 rZeroCool ∧
    advanceHeat 1 3 SPARKINGRainbow (fun _ => rZeroCool)
      (fun _ => heatExample) 0 2 = 166 ∧
    (100 + 200 + 200) / 3 = 166 ∧ 166 ≠ 66 :=
  ⟨⟨fun i _ => by show (0 : Nat) < 0 * 10 / 3 + 2; decide,
    by decide, by decide, by decide, by decide⟩,
   by decide, by norm_num, by norm_num⟩

/-- C10 amended: on the 1×3 grid `[200,100,50]` with COOLING = 0 the
cooling draws range over `[0,2)`; when they are all zero, a single
frame computes `heat[0][2] = (100 + 200 + 200)/3 = 166` exactly
(diffusion at row 2 reads rows 1 and 0, the two rows below it; the
result is deterministic once the draws are fixed, but a draw of 1 is
also valid and gives a different value, so the value is not determined
by COOLING = 0 alone). -/
theorem diffusion_example_amended (r : ColRand)
    (hv : ColRand.Valid 0 3 r) (hz : ∀ i, i < 3 → r.cool i = 0) :
    (∀ i, i < 3 → r.cool i < 2) ∧
    advanceHeat 1 3 SPARKINGRainbow (fun _ => r)
      (fun _ => heatExample) 0 2 = 166 := by
  have hcool : ∀ j, j < 3 → coolCol 3 r.cool heatExample j = heatExample j := by
    intro j hj
    show (if j < 3 then qsub8 (heatExample j) (r.cool j) else heatExample j) =
      heatExample j
    rw [if_pos hj, hz j hj]
    exact Nat.sub_zero _
  have hdiff : diffuseCol 3 (coolCol 3 r.cool heatExample) 2 = 166 := by
    rw [diffuseCol_eq, if_pos ⟨by norm_num, by norm_num⟩,
      show (2 : Nat) - 1 = 1 from rfl, show (2 : Nat) - 2 = 0 from rfl,
      hcool 1 (by norm_num), hcool 0 (by norm_num)]
    decide
  constructor
  · intro i hi
    have h := hv.1 i hi
    norm_num at h
    exact h
  · show igniteCol SPARKINGRainbow r (diffuseCol 3 (coolCol 3 r.cool heatExample))
        2 = 166
    have hrow : (2 : Nat) ≠ r.sparkRow := by
      have h := hv.2.2.1
      omega
    unfold igniteCol updateF
    split
    · show (if (2 : Nat) = r.sparkRow then
          qadd8 (diffuseCol 3 (coolCol 3 r.cool heatExample) r.sparkRow)
            r.sparkAmt
        else diffuseCol 3 (coolCol 3 r.cool heatExample) 2) = 166
      rw [if_neg hrow]
      exact hdiff
    · exact hdiff

theorem diffusion_example_amended_witness :
    (∀ i, i < 3 → rZeroCool.cool i < 2) ∧
    advanceHeat 1 3 SPARKINGRainbow (fun _ => rZeroCool)
      (fun _ => heatExample) 0 2 = 166 :=
  diffusion_example_amended rZeroCool
    ⟨fun i _ => by show (0 : Nat) < 0 * 10 / 3 + 2; decide,
      by decide, by decide, by decide, by decide⟩
    (fun i _ => rfl)

end Fire2012
